import Mathlib

/-!
Verification development for the DouBaoFreeImageGen MCP server task
dispatcher (`src/McpServer/server.py`). The Python classes `Client`,
`Task` and `AppContext` are embedded as Lean structures; the Python
dicts `clients` and `tasks` (which preserve insertion order) are
embedded as lists keyed by the `id` field, and wall-clock time is
threaded explicitly as an `Int` parameter wherever the source calls
`time.time()`.
-/

namespace McpServer

/-- `ClientStatus` enum from server.py (`IDLE`/`BUSY`). -/
inductive ClientStatus where
  | idle
  | busy
deriving DecidableEq, Repr

/-- The `Client` dataclass. `wsOpen` embeds the only fact about the
`websocket` field the dispatcher ever reads:
`hasattr(websocket, "state") and websocket.state == websockets.State.OPEN`. -/
structure Client where
  id : String
  wsOpen : Bool
  status : ClientStatus := .idle
  current_task_id : Option String := none
  last_active : Int := 0
  url : Option String := none
deriving DecidableEq, Repr

/-- The `Task` dataclass. Statuses are the literal strings of the
source: `"pending"`, `"completed"`, `"timeout"`, `"error"`. -/
structure Task where
  id : String
  prompt : String
  client_id : String
  create_time : Int
  timeout : Int := 60
  image_urls : List String := []
  status : String := "pending"
deriving DecidableEq, Repr

/-- `Task.is_timeout`: `time.time() - self.create_time > self.timeout`. -/
def Task.is_timeout (t : Task) (now : Int) : Bool :=
  now - t.create_time > t.timeout

/-- The shared `AppContext`: client registry, task store, round-robin cursor. -/
structure AppContext where
  clients : List Client := []
  tasks : List Task := []
  round_robin_index : Nat := 0
deriving DecidableEq, Repr

/-- Dict lookup `self.clients.get(cid)` / `cid in self.clients`. -/
def clientOf (s : AppContext) (cid : String) : Option Client :=
  s.clients.find? (fun c => c.id == cid)

/-- Dict lookup `self.tasks.get(tid)` / `tid in self.tasks`. -/
def taskOf (s : AppContext) (tid : String) : Option Task :=
  s.tasks.find? (fun t => t.id == tid)

/-- In-place mutation of the client stored under key `cid` (no-op when absent). -/
def updClients (cs : List Client) (cid : String) (f : Client → Client) : List Client :=
  cs.map (fun c => if c.id == cid then f c else c)

/-- In-place mutation of the task stored under key `tid` (no-op when absent). -/
def updTasks (ts : List Task) (tid : String) (f : Task → Task) : List Task :=
  ts.map (fun t => if t.id == tid then f t else t)

/-- Dict assignment `self.clients[c.id] = c`: replace in place if the key
exists, append otherwise. -/
def dictSetClient (cs : List Client) (c : Client) : List Client :=
  if cs.any (fun x => x.id == c.id) then cs.map (fun x => if x.id == c.id then c else x)
  else cs ++ [c]

/-- Dict assignment `self.tasks[t.id] = t`. -/
def dictSetTask (ts : List Task) (t : Task) : List Task :=
  if ts.any (fun x => x.id == t.id) then ts.map (fun x => if x.id == t.id then t else x)
  else ts ++ [t]

/-- `AppContext.add_client`: insert a fresh idle client. -/
def AppContext.add_client (s : AppContext) (cid : String) (wsOpen : Bool) : AppContext :=
  { s with clients := dictSetClient s.clients { id := cid, wsOpen := wsOpen } }

/-- `AppContext.remove_client`: if the client is registered, mark every
pending task bound to it as `"error"`, then delete the client. The whole
body is guarded by `if client_id in self.clients`. -/
def AppContext.remove_client (s : AppContext) (cid : String) : AppContext :=
  if s.clients.any (fun c => c.id == cid) then
    { s with
      tasks := s.tasks.map (fun t =>
        if t.client_id == cid && t.status == "pending" then { t with status := "error" } else t),
      clients := s.clients.filter (fun c => !(c.id == cid)) }
  else s

/-- The selection predicate of `get_idle_client`:
`client.status == ClientStatus.IDLE and client.websocket.state == OPEN`. -/
def idleOpen (c : Client) : Bool :=
  c.status == ClientStatus.idle && c.wsOpen

/-- The `for i in range(len(client_ids))` scan of `get_idle_client`:
probe position `(start + i) % len` and return the first index holding an
idle client with an open connection. `fuel` is the number of probes left. -/
def scanIdleAux (cs : List Client) (start : Nat) : Nat → Nat → Option Nat
  | _, 0 => none
  | i, fuel + 1 =>
    let idx := (start + i) % cs.length
    match cs[idx]? with
    | none => none
    | some c => if idleOpen c then some idx else scanIdleAux cs start (i + 1) fuel

/-- `AppContext.get_idle_client`: round-robin scan from the cursor; on
success the cursor is advanced to the slot after the selected client. -/
def AppContext.get_idle_client (s : AppContext) : Option Client × AppContext :=
  if s.clients.isEmpty then (none, s)
  else
    match scanIdleAux s.clients s.round_robin_index 0 s.clients.length with
    | none => (none, s)
    | some idx =>
      match s.clients[idx]? with
      | none => (none, s)
      | some c => (some c, { s with round_robin_index := (idx + 1) % s.clients.length })

/-- `AppContext.set_client_busy` (guarded by `if client_id in self.clients`). -/
def AppContext.set_client_busy (s : AppContext) (now : Int) (cid tid : String) : AppContext :=
  if s.clients.any (fun c => c.id == cid) then
    { s with clients := updClients s.clients cid (fun c =>
        { c with status := .busy, current_task_id := some tid, last_active := now }) }
  else s

/-- `AppContext.set_client_idle` (guarded by `if client_id in self.clients`). -/
def AppContext.set_client_idle (s : AppContext) (now : Int) (cid : String) : AppContext :=
  if s.clients.any (fun c => c.id == cid) then
    { s with clients := updClients s.clients cid (fun c =>
        { c with status := .idle, current_task_id := none, last_active := now }) }
  else s

/-- `AppContext.create_task`: allocate a pending task under a fresh id and
store it; returns the task like the source does. -/
def AppContext.create_task (s : AppContext) (prompt cid tid : String) (now : Int) :
    Task × AppContext :=
  let t : Task := { id := tid, prompt := prompt, client_id := cid, create_time := now }
  (t, { s with tasks := dictSetTask s.tasks t })

/-- `AppContext.complete_task`: guarded only by `if task_id in self.tasks`
(no terminal-status check); overwrites `image_urls` and `status` and sets
the owning client idle. -/
def AppContext.complete_task (s : AppContext) (now : Int) (tid : String)
    (urls : List String) : AppContext :=
  match taskOf s tid with
  | none => s
  | some t =>
    let s1 : AppContext :=
      { s with tasks := updTasks s.tasks tid (fun x =>
          { x with image_urls := urls, status := "completed" }) }
    s1.set_client_idle now t.client_id

/-- `AppContext.timeout_task`: guarded only by `if task_id in self.tasks`
(no terminal-status check); overwrites `status` and sets the owning
client idle. -/
def AppContext.timeout_task (s : AppContext) (now : Int) (tid : String) : AppContext :=
  match taskOf s tid with
  | none => s
  | some t =>
    let s1 : AppContext :=
      { s with tasks := updTasks s.tasks tid (fun x => { x with status := "timeout" }) }
    s1.set_client_idle now t.client_id

/-- One step of the `check_timeouts` loop: look the task id up in the
current store and, if the task is pending and past its deadline, run
`timeout_task` on it. -/
def checkStep (now : Int) (st : AppContext) (tid : String) : AppContext :=
  match taskOf st tid with
  | some t => if t.status == "pending" && t.is_timeout now then st.timeout_task now tid else st
  | none => st

/-- `AppContext.check_timeouts`: for every task (iterated in store order),
if it is pending and past its deadline, run `timeout_task` on it. -/
def AppContext.check_timeouts (s : AppContext) (now : Int) : AppContext :=
  (s.tasks.map (fun t => t.id)).foldl (checkStep now) s

/-- `AppContext.cleanup_old_tasks`: delete every task whose age exceeds
`max_age_hours` (in seconds), regardless of status; clients untouched. -/
def AppContext.cleanup_old_tasks (s : AppContext) (now : Int) (max_age_hours : Int) :
    AppContext :=
  { s with tasks := s.tasks.filter (fun t => !(now - t.create_time > max_age_hours * 3600)) }

/-- `AppContext.cleanup_disconnected_clients`: collect the ids of clients
whose connection is not open, then `remove_client` each. -/
def AppContext.cleanup_disconnected_clients (s : AppContext) : AppContext :=
  ((s.clients.filter (fun c => !c.wsOpen)).map (fun c => c.id)).foldl
    (fun st cid => st.remove_client cid) s

/-- The direct object mutation `task.status = st` in `draw_image`
(observable in the store only while the task is still in the dict). -/
def AppContext.setTaskStatus (s : AppContext) (tid st : String) : AppContext :=
  { s with tasks := updTasks s.tasks tid (fun t => { t with status := st }) }

/-- A character Python's default `str.strip()` removes: the Unicode
whitespace set U+0009..U+000D, U+001C..U+001F, U+0020, U+0085, U+00A0,
U+1680, U+2000..U+200A, U+2028, U+2029, U+202F, U+205F, U+3000. -/
def isPyWs (c : Char) : Bool :=
  decide ((9 ≤ c.toNat ∧ c.toNat ≤ 13) ∨ (28 ≤ c.toNat ∧ c.toNat ≤ 31) ∨ c.toNat = 32 ∨
    c.toNat = 133 ∨ c.toNat = 160 ∨ c.toNat = 5760 ∨
    (8192 ≤ c.toNat ∧ c.toNat ≤ 8202) ∨ c.toNat = 8232 ∨ c.toNat = 8233 ∨
    c.toNat = 8239 ∨ c.toNat = 8287 ∨ c.toNat = 12288)

/-- `not prompt or not prompt.strip()`: true exactly when the prompt is
empty or all-whitespace. -/
def pyBlank (p : String) : Bool :=
  p.toList.all isPyWs

/-- Caller-visible outcomes of `draw_image`, abstracted from the JSON payloads. -/
inductive DrawResult where
  | invalidArg
  | unavailable
  | deliveryFailed
  | success (urls : List String)
  | taskFailed (st : String) (urls : List String)
  | timedOut (urls : List String)
  | cancelled
  | internalError
deriving DecidableEq, Repr

/-- The housekeeping block at the top of `draw_image`: `check_timeouts`,
then `cleanup_disconnected_clients`, then `cleanup_old_tasks` when the
store holds more than 50 tasks. -/
def housekeeping (s : AppContext) (now : Int) : AppContext :=
  let s1 := s.check_timeouts now
  let s2 := s1.cleanup_disconnected_clients
  if 50 < s2.tasks.length then s2.cleanup_old_tasks now 24 else s2

/-- Outcome of the deterministic opening of `draw_image`, up to (but not
including) the `send_to_client` call. -/
inductive StartOutcome where
  | reject (r : DrawResult) (s : AppContext)
  | proceed (s : AppContext) (c : Client) (t : Task)
deriving DecidableEq, Repr

/-- The opening of `draw_image`: prompt validation, housekeeping
(`check_timeouts`, `cleanup_disconnected_clients`, conditional
`cleanup_old_tasks`), idle-client selection, task creation and client
binding. `freshTid` stands for the fresh `uuid4` task id. -/
def drawImageStart (s : AppContext) (now : Int) (prompt : String) (freshTid : String) :
    StartOutcome :=
  if pyBlank prompt then .reject .invalidArg s
  else
    let s3 := housekeeping s now
    match s3.get_idle_client with
    | (none, s4) => .reject .unavailable s4
    | (some c, s4) =>
      let p := s4.create_task prompt c.id freshTid now
      let s6 := p.2.set_client_busy now c.id p.1.id
      .proceed s6 c p.1

/-- The `if not success` branch after `send_to_client` fails: restore the
client to idle, set the task object's status to `"error"`, and return the
delivery-failure error without entering the wait loop. -/
def drawImageSendFail (s : AppContext) (now : Int) (cid tid : String) :
    DrawResult × AppContext :=
  let s1 := s.set_client_idle now cid
  (.deliveryFailed, s1.setTaskStatus tid "error")

/-- The ways one `draw_image` call can leave its post-send section.
`sawCompleted`/`sawFailed` are the poll-loop observations of a terminal
status (they return without mutating); `disappeared` is the
`if not current_task: break` path, which falls through to the manual
timeout code; `exhausted` is the wait-loop deadline; `cancelled` is the
`asyncio.CancelledError` handler; `internalError` is the generic
`except Exception` handler. -/
inductive ExitPath where
  | sendFail
  | sawCompleted
  | sawFailed
  | disappeared
  | exhausted
  | cancelled
  | internalError
deriving DecidableEq, Repr

/-- State effect of each exit path of `draw_image`, for the dispatch that
bound client `cid` to task `tid`. -/
def runExit (p : ExitPath) (s : AppContext) (now : Int) (cid tid : String) : AppContext :=
  match p with
  | .sendFail => (s.set_client_idle now cid).setTaskStatus tid "error"
  | .sawCompleted => s
  | .sawFailed => s
  | .disappeared => s.timeout_task now tid
  | .exhausted => s.timeout_task now tid
  | .cancelled => s.timeout_task now tid
  | .internalError => (s.set_client_idle now cid).setTaskStatus tid "error"

/-- `get_connection_status` begins with `check_timeouts`; the report is
then built from the updated state. We model the state effect; the report
itself is a pure read of the post-state. -/
def getConnectionStatusState (s : AppContext) (now : Int) : AppContext :=
  s.check_timeouts now

/-- Iterated selection: the registry state after `k` consecutive
`get_idle_client` calls with no intervening operations. -/
def iterSelect (s : AppContext) : Nat → AppContext
  | 0 => s
  | k + 1 => ((iterSelect s k).get_idle_client).2

/-- The client returned by the `(k+1)`-th consecutive `get_idle_client` call. -/
def selAt (s : AppContext) (k : Nat) : Option Client :=
  ((iterSelect s k).get_idle_client).1

/-- Example: a lone idle client `a` with an open connection. -/
def exClientA : Client := { id := "a", wsOpen := true }

/-- Example: a task owned by client `a`, created at time 0. -/
def exTaskA : Task := { id := "t1", prompt := "p", client_id := "a", create_time := 0 }

/-- Example registry for C1: client `a` idle, its task `t1` already
terminal with status `"timeout"`. -/
def exTermState : AppContext :=
  { clients := [exClientA], tasks := [{ exTaskA with status := "timeout" }] }

/-- Example registry for C6: no clients at all, but one orphaned pending
task whose 60-second deadline has long passed by time 100. -/
def exOrphanState : AppContext :=
  { clients := [], tasks := [{ exTaskA with client_id := "gone" }] }

/-- Example registry for C3: client `a` is busy and bound to task id
`t1`, but `t1` is no longer in the task store (pruned mid-wait). -/
def exGoneState : AppContext :=
  { clients := [{ exClientA with status := .busy, current_task_id := some "t1" }],
    tasks := [] }

/-- Example registry for C3/C4/C10 witnesses: client `a` busy and bound
to the still-pending task `t1`. -/
def exBusyState : AppContext :=
  { clients := [{ exClientA with status := .busy, current_task_id := some "t1" }],
    tasks := [exTaskA] }

/-- Example registry for C2: three idle clients with open connections. -/
def exThreeIdle : AppContext :=
  { clients := [exClientA, { exClientA with id := "b" }, { exClientA with id := "c" }] }

/-- The operations of the registry, scheduler, task store and dispatch
path, as one alphabet of state transformers. -/
inductive Op where
  | addClient (cid : String) (wsOpen : Bool)
  | removeClient (cid : String)
  | getIdle
  | setBusy (now : Int) (cid tid : String)
  | setIdle (now : Int) (cid : String)
  | createTask (prompt cid tid : String) (now : Int)
  | completeTask (now : Int) (tid : String) (urls : List String)
  | timeoutTask (now : Int) (tid : String)
  | checkTimeouts (now : Int)
  | cleanupOld (now maxh : Int)
  | cleanupDisconnected
  | setTaskStatus (tid st : String)
  | drawStart (now : Int) (prompt freshTid : String)
  | drawExit (p : ExitPath) (now : Int) (cid tid : String)
deriving DecidableEq, Repr

/-- Interpretation of `Op` on the shared context. -/
def applyOp (op : Op) (s : AppContext) : AppContext :=
  match op with
  | .addClient cid wsOpen => s.add_client cid wsOpen
  | .removeClient cid => s.remove_client cid
  | .getIdle => (s.get_idle_client).2
  | .setBusy now cid tid => s.set_client_busy now cid tid
  | .setIdle now cid => s.set_client_idle now cid
  | .createTask prompt cid tid now => (s.create_task prompt cid tid now).2
  | .completeTask now tid urls => s.complete_task now tid urls
  | .timeoutTask now tid => s.timeout_task now tid
  | .checkTimeouts now => s.check_timeouts now
  | .cleanupOld now maxh => s.cleanup_old_tasks now maxh
  | .cleanupDisconnected => s.cleanup_disconnected_clients
  | .setTaskStatus tid st => s.setTaskStatus tid st
  | .drawStart now prompt freshTid =>
    match drawImageStart s now prompt freshTid with
    | .reject _ s1 => s1
    | .proceed s1 _ _ => s1
  | .drawExit p now cid tid => runExit p s now cid tid

/-- The Client invariant of the spec: `currentTaskId != null ⇔ status == Busy`. -/
def clientInv (c : Client) : Prop :=
  c.current_task_id ≠ none ↔ c.status = ClientStatus.busy

/-- The invariant holds for every client in the registry. -/
def stateInv (s : AppContext) : Prop :=
  ∀ c ∈ s.clients, clientInv c

instance (c : Client) : Decidable (clientInv c) := by
  unfold clientInv; infer_instance

instance (s : AppContext) : Decidable (stateInv s) := by
  unfold stateInv; infer_instance

/-! ### Generic list helpers -/

theorem find?_map_of_pred {α : Type} (l : List α) (g : α → α) (p : α → Bool)
    (h : ∀ x, p (g x) = p x) :
    (l.map g).find? p = (l.find? p).map g := by
  induction l with
  | nil => rfl
  | cons a l ih =>
    simp only [List.map_cons]
    cases hpa : p a with
    | true => simp [List.find?_cons, h a, hpa]
    | false => simp [List.find?_cons, h a, hpa, ih]

theorem find?_filter_of_imp {α : Type} (l : List α) (p q : α → Bool)
    (h : ∀ x, p x = true → q x = true) :
    (l.filter q).find? p = l.find? p := by
  induction l with
  | nil => rfl
  | cons a l ih =>
    cases hq : q a with
    | true =>
      cases hpa : p a with
      | true => simp [List.filter_cons, hq, List.find?_cons, hpa]
      | false => simp [List.filter_cons, hq, List.find?_cons, hpa, ih]
    | false =>
      have hpa : p a = false := by
        cases hpa : p a with
        | true => rw [h a hpa] at hq; exact absurd hq (by simp)
        | false => rfl
      simp [List.filter_cons, hq, List.find?_cons, hpa, ih]

theorem foldl_preserves {α β : Type} (P : α → Prop) (f : α → β → α) (l : List β) (s : α)
    (hf : ∀ st x, P st → P (f st x)) (hs : P s) : P (l.foldl f s) := by
  induction l generalizing s with
  | nil => exact hs
  | cons a l ih => exact ih _ (hf s a hs)

theorem find?_of_mem_nodup {α : Type} (l : List α) (key : α → String)
    (hnd : (l.map key).Nodup) (x : α) (hx : x ∈ l) :
    l.find? (fun y => key y == key x) = some x := by
  induction l with
  | nil => cases hx
  | cons a l ih =>
    rcases List.mem_cons.mp hx with rfl | hx2
    · simp [List.find?_cons]
    · have hne : key a ≠ key x := by
        intro he
        have : key x ∈ l.map key := List.mem_map_of_mem key hx2
        rw [← he] at this
        exact (List.nodup_cons.mp (by simpa using hnd)).1 this
      have : (key a == key x) = false := by simpa using hne
      simp [List.find?_cons, this]
      exact ih (List.nodup_cons.mp (by simpa using hnd)).2 hx2

/-! ### Frame and characterization lemmas for the registry operations -/

theorem set_client_idle_tasks (s : AppContext) (now : Int) (cid : String) :
    (s.set_client_idle now cid).tasks = s.tasks := by
  unfold AppContext.set_client_idle; split <;> rfl

theorem set_client_busy_tasks (s : AppContext) (now : Int) (cid tid : String) :
    (s.set_client_busy now cid tid).tasks = s.tasks := by
  unfold AppContext.set_client_busy; split <;> rfl

theorem setTaskStatus_clients (s : AppContext) (tid st : String) :
    (s.setTaskStatus tid st).clients = s.clients := rfl

theorem cleanup_old_tasks_clients (s : AppContext) (now maxh : Int) :
    (s.cleanup_old_tasks now maxh).clients = s.clients := rfl

theorem get_idle_client_clients (s : AppContext) :
    ((s.get_idle_client).2).clients = s.clients := by
  unfold AppContext.get_idle_client
  repeat' split
  all_goals rfl

theorem get_idle_client_tasks (s : AppContext) :
    ((s.get_idle_client).2).tasks = s.tasks := by
  unfold AppContext.get_idle_client
  repeat' split
  all_goals rfl

theorem get_idle_client_eq (s : AppContext) :
    s.get_idle_client = (none, s) ∨
    ∃ idx c, s.get_idle_client
      = (some c, { s with round_robin_index := (idx + 1) % s.clients.length }) := by
  unfold AppContext.get_idle_client
  split
  · left; rfl
  · split
    · left; rfl
    · split
      · left; rfl
      · right; exact ⟨_, _, rfl⟩

theorem get_idle_client_none (s : AppContext) (h : (s.get_idle_client).1 = none) :
    (s.get_idle_client).2 = s := by
  rcases get_idle_client_eq s with he | ⟨idx, c, he⟩
  · rw [he]
  · rw [he] at h
    exact absurd h (by simp)

theorem clientOf_eq_none_of_not_any (s : AppContext) (cid : String)
    (h : s.clients.any (fun c => c.id == cid) = false) :
    clientOf s cid = none := by
  unfold clientOf
  rw [List.find?_eq_none]
  intro x hx hpx
  have hany : s.clients.any (fun c => c.id == cid) = true :=
    List.any_eq_true.mpr ⟨x, hx, hpx⟩
  rw [h] at hany
  exact absurd hany (by simp)

theorem find?_updClients (cs : List Client) (cid : String) (f : Client → Client)
    (hid : ∀ c, (f c).id = c.id) (cid2 : String) :
    (updClients cs cid f).find? (fun c => c.id == cid2)
      = (cs.find? (fun c => c.id == cid2)).map (fun c => if c.id == cid then f c else c) :=
  find?_map_of_pred _ _ _ (fun x => by by_cases hx : x.id == cid <;> simp [updClients, hx, hid])

theorem find?_updTasks (ts : List Task) (tid : String) (f : Task → Task)
    (hid : ∀ t, (f t).id = t.id) (tid2 : String) :
    (updTasks ts tid f).find? (fun t => t.id == tid2)
      = (ts.find? (fun t => t.id == tid2)).map (fun t => if t.id == tid then f t else t) :=
  find?_map_of_pred _ _ _ (fun x => by by_cases hx : x.id == tid <;> simp [updTasks, hx, hid])

theorem clientOf_set_client_idle (s : AppContext) (now : Int) (cid cid2 : String) :
    clientOf (s.set_client_idle now cid) cid2
      = (clientOf s cid2).map (fun c =>
          if c.id == cid then
            { c with status := ClientStatus.idle, current_task_id := none, last_active := now }
          else c) := by
  unfold AppContext.set_client_idle
  by_cases hg : s.clients.any (fun c => c.id == cid) = true
  · rw [if_pos hg]
    exact find?_updClients s.clients cid
      (fun c => { c with status := ClientStatus.idle, current_task_id := none,
                         last_active := now }) (fun c => rfl) cid2
  · rw [if_neg hg]
    cases hfind : clientOf s cid2 with
    | none => simp
    | some c =>
      have hmem : c ∈ s.clients := List.mem_of_find?_eq_some hfind
      have hne : ¬(c.id = cid) := by
        intro he
        exact hg (List.any_eq_true.mpr ⟨c, hmem, by simpa using he⟩)
      simp [hne]

theorem clientOf_set_client_busy (s : AppContext) (now : Int) (cid tid cid2 : String) :
    clientOf (s.set_client_busy now cid tid) cid2
      = (clientOf s cid2).map (fun c =>
          if c.id == cid then
            { c with status := ClientStatus.busy, current_task_id := some tid,
                     last_active := now }
          else c) := by
  unfold AppContext.set_client_busy
  by_cases hg : s.clients.any (fun c => c.id == cid) = true
  · rw [if_pos hg]
    exact find?_updClients s.clients cid
      (fun c => { c with status := ClientStatus.busy, current_task_id := some tid,
                         last_active := now }) (fun c => rfl) cid2
  · rw [if_neg hg]
    cases hfind : clientOf s cid2 with
    | none => simp
    | some c =>
      have hmem : c ∈ s.clients := List.mem_of_find?_eq_some hfind
      have hne : ¬(c.id = cid) := by
        intro he
        exact hg (List.any_eq_true.mpr ⟨c, hmem, by simpa using he⟩)
      simp [hne]

theorem taskOf_setTaskStatus (s : AppContext) (tid st tid2 : String) :
    taskOf (s.setTaskStatus tid st) tid2
      = (taskOf s tid2).map (fun t => if t.id == tid then { t with status := st } else t) :=
  find?_updTasks s.tasks tid (fun t => { t with status := st }) (fun _ => rfl) tid2

theorem taskOf_set_client_idle (s : AppContext) (now : Int) (cid tid : String) :
    taskOf (s.set_client_idle now cid) tid = taskOf s tid := by
  unfold taskOf
  rw [set_client_idle_tasks]

theorem clientOf_setTaskStatus (s : AppContext) (tid st cid : String) :
    clientOf (s.setTaskStatus tid st) cid = clientOf s cid := rfl

theorem clientOf_some_id (s : AppContext) (cid : String) (c : Client)
    (h : clientOf s cid = some c) : (c.id == cid) = true := by
  unfold clientOf at h
  have h2 := List.find?_some h
  simpa using h2

theorem taskOf_some_id (s : AppContext) (tid : String) (t : Task)
    (h : taskOf s tid = some t) : (t.id == tid) = true := by
  unfold taskOf at h
  have h2 := List.find?_some h
  simpa using h2

theorem clientOf_set_client_idle_self (s : AppContext) (now : Int) (cid : String) :
    clientOf (s.set_client_idle now cid) cid
      = (clientOf s cid).map (fun c =>
          { c with status := ClientStatus.idle, current_task_id := none, last_active := now }) := by
  rw [clientOf_set_client_idle]
  cases hfind : clientOf s cid with
  | none => rfl
  | some c =>
    have hid : c.id = cid := by simpa using clientOf_some_id s cid c hfind
    simp [hid]

theorem clientOf_set_client_busy_self (s : AppContext) (now : Int) (cid tid : String) :
    clientOf (s.set_client_busy now cid tid) cid
      = (clientOf s cid).map (fun c =>
          { c with status := ClientStatus.busy, current_task_id := some tid,
                   last_active := now }) := by
  rw [clientOf_set_client_busy]
  cases hfind : clientOf s cid with
  | none => rfl
  | some c =>
    have hid : c.id = cid := by simpa using clientOf_some_id s cid c hfind
    simp [hid]

theorem taskOf_setTaskStatus_self (s : AppContext) (tid st : String) :
    taskOf (s.setTaskStatus tid st) tid
      = (taskOf s tid).map (fun t => { t with status := st }) := by
  rw [taskOf_setTaskStatus]
  cases hfind : taskOf s tid with
  | none => rfl
  | some t =>
    have hid : t.id = tid := by simpa using taskOf_some_id s tid t hfind
    simp [hid]

theorem clientOf_eq_none_iff (s : AppContext) (cid : String) :
    clientOf s cid = none ↔ s.clients.any (fun c => c.id == cid) = false := by
  constructor
  · intro h
    cases hany : s.clients.any (fun c => c.id == cid) with
    | false => rfl
    | true =>
      obtain ⟨x, hx, hpx⟩ := List.any_eq_true.mp hany
      unfold clientOf at h
      rw [List.find?_eq_none] at h
      exact absurd hpx (by simpa using h x hx)
  · exact clientOf_eq_none_of_not_any s cid

/-! ## C1: terminal task status is not frozen -/

/-- C1 counterexample: in `exTermState` task `t1` is already terminal
(status `"timeout"`), yet `complete_task` overwrites its status to
`"completed"` and its result urls — not a no-op as the claim states. -/
theorem complete_overwrites_terminal_cex :
    (taskOf exTermState "t1").map (fun t => t.status) = some "timeout" ∧
    (taskOf (exTermState.complete_task 100 "t1" ["u"]) "t1").map (fun t => t.status)
      = some "completed" ∧
    (taskOf (exTermState.complete_task 100 "t1" ["u"]) "t1").map (fun t => t.image_urls)
      = some ["u"] :=
  ⟨rfl, rfl, rfl⟩

/-- C1 (amended): `complete_task` and `timeout_task` are no-ops only when
the task id is absent from the store. On a present task — terminal or
not — `complete_task` overwrites `image_urls` and sets status
`"completed"`, and `timeout_task` sets status `"timeout"`; the last
writer wins. -/
theorem terminal_status_not_frozen (s : AppContext) (now : Int) (tid : String)
    (urls : List String) :
    (taskOf s tid = none →
      s.complete_task now tid urls = s ∧ s.timeout_task now tid = s) ∧
    (∀ t, taskOf s tid = some t →
      taskOf (s.complete_task now tid urls) tid
          = some { t with image_urls := urls, status := "completed" } ∧
      taskOf (s.timeout_task now tid) tid = some { t with status := "timeout" } ∧
      clientOf (s.complete_task now tid urls) t.client_id
          = (clientOf s t.client_id).map (fun c =>
              { c with status := ClientStatus.idle, current_task_id := none,
                       last_active := now }) ∧
      clientOf (s.timeout_task now tid) t.client_id
          = (clientOf s t.client_id).map (fun c =>
              { c with status := ClientStatus.idle, current_task_id := none,
                       last_active := now })) := by
  constructor
  · intro h
    unfold AppContext.complete_task AppContext.timeout_task
    rw [h]
    exact ⟨rfl, rfl⟩
  · intro t ht
    have hpred : (t.id == tid) = true := taskOf_some_id s tid t ht
    have hid : t.id = tid := by simpa using hpred
    refine ⟨?_, ?_, ?_, ?_⟩
    · unfold AppContext.complete_task
      rw [ht]
      rw [taskOf_set_client_idle]
      unfold taskOf
      rw [show ({ s with tasks := updTasks s.tasks tid (fun x =>
            { x with image_urls := urls, status := "completed" }) } : AppContext).tasks
          = updTasks s.tasks tid (fun x =>
            { x with image_urls := urls, status := "completed" }) from rfl]
      rw [find?_updTasks s.tasks tid (fun x =>
            { x with image_urls := urls, status := "completed" }) (fun _ => rfl) tid]
      unfold taskOf at ht
      rw [ht]
      simp [hid]
    · unfold AppContext.timeout_task
      rw [ht]
      rw [taskOf_set_client_idle]
      unfold taskOf
      rw [show ({ s with tasks := updTasks s.tasks tid (fun x =>
            { x with status := "timeout" }) } : AppContext).tasks
          = updTasks s.tasks tid (fun x => { x with status := "timeout" }) from rfl]
      rw [find?_updTasks s.tasks tid (fun x => { x with status := "timeout" })
            (fun _ => rfl) tid]
      unfold taskOf at ht
      rw [ht]
      simp [hid]
    · unfold AppContext.complete_task
      rw [ht]
      rw [clientOf_set_client_idle_self]
      rfl
    · unfold AppContext.timeout_task
      rw [ht]
      rw [clientOf_set_client_idle_self]
      rfl

/-- C1 witness: the amended characterization evaluated on `exTermState`:
the terminal task is overwritten and the owning client `a` is set idle by
both calls. -/
theorem terminal_status_not_frozen_witness :
    taskOf (exTermState.complete_task 100 "t1" ["u"]) "t1"
      = some { exTaskA with image_urls := ["u"], status := "completed" } ∧
    taskOf (exTermState.timeout_task 100 "t1") "t1"
      = some { exTaskA with status := "timeout" } ∧
    clientOf (exTermState.complete_task 100 "t1" ["u"]) "a"
      = (clientOf exTermState "a").map (fun c =>
          { c with status := ClientStatus.idle, current_task_id := none,
                   last_active := 100 }) ∧
    clientOf (exTermState.timeout_task 100 "t1") "a"
      = (clientOf exTermState "a").map (fun c =>
          { c with status := ClientStatus.idle, current_task_id := none,
                   last_active := 100 }) :=
  (terminal_status_not_frozen exTermState 100 "t1" ["u"]).2
    { exTaskA with status := "timeout" } rfl

/-! ## C5: blank prompt is rejected without touching any state -/

/-- C5: a prompt that is empty or whitespace-only makes `draw_image`
return the invalid-argument error immediately, with the whole context —
in particular the task store — unchanged. -/
theorem blank_prompt_rejected (s : AppContext) (now : Int) (prompt freshTid : String)
    (h : pyBlank prompt = true) :
    drawImageStart s now prompt freshTid = .reject .invalidArg s := by
  unfold drawImageStart
  rw [if_pos h]

/-- C5 witness: a whitespace-only prompt (an ASCII space followed by an
ideographic space U+3000, which `str.strip()` also removes) on a concrete
state. -/
theorem blank_prompt_rejected_witness :
    drawImageStart exBusyState 5 " 　" "t9" = .reject .invalidArg exBusyState :=
  blank_prompt_rejected exBusyState 5 " 　" "t9" (by decide)

/-! ## C7: delivery failure is handled immediately -/

/-- C7: when `send_to_client` reports failure, `draw_image` (modelled by
`drawImageSendFail`, which is the immediate return before the wait loop)
returns the delivery-failure error, marks the selected client idle
(clearing its bound task id), and sets the task's status to `"error"`,
leaving all other clients and tasks untouched. -/
theorem delivery_failure_immediate (s : AppContext) (now : Int) (cid tid : String) :
    (drawImageSendFail s now cid tid).1 = DrawResult.deliveryFailed ∧
    clientOf (drawImageSendFail s now cid tid).2 cid
      = (clientOf s cid).map (fun c =>
          { c with status := ClientStatus.idle, current_task_id := none,
                   last_active := now }) ∧
    taskOf (drawImageSendFail s now cid tid).2 tid
      = (taskOf s tid).map (fun t => { t with status := "error" }) ∧
    (∀ cid2, cid2 ≠ cid →
      clientOf (drawImageSendFail s now cid tid).2 cid2 = clientOf s cid2) ∧
    (∀ tid2, tid2 ≠ tid →
      taskOf (drawImageSendFail s now cid tid).2 tid2 = taskOf s tid2) := by
  refine ⟨rfl, ?_, ?_, ?_, ?_⟩
  · rw [show (drawImageSendFail s now cid tid).2
        = ((s.set_client_idle now cid).setTaskStatus tid "error") from rfl]
    rw [clientOf_setTaskStatus, clientOf_set_client_idle_self]
  · rw [show (drawImageSendFail s now cid tid).2
        = ((s.set_client_idle now cid).setTaskStatus tid "error") from rfl]
    rw [taskOf_setTaskStatus_self, taskOf_set_client_idle]
  · intro cid2 hne
    rw [show (drawImageSendFail s now cid tid).2
        = ((s.set_client_idle now cid).setTaskStatus tid "error") from rfl]
    rw [clientOf_setTaskStatus, clientOf_set_client_idle]
    cases hfind : clientOf s cid2 with
    | none => rfl
    | some c =>
      have hpred : (c.id == cid2) = true := clientOf_some_id s cid2 c hfind
      have : ¬(c.id = cid) := by
        intro he
        exact hne (by rw [← (by simpa using hpred : c.id = cid2), he])
      simp [this]
  · intro tid2 hne
    rw [show (drawImageSendFail s now cid tid).2
        = ((s.set_client_idle now cid).setTaskStatus tid "error") from rfl]
    rw [taskOf_setTaskStatus, taskOf_set_client_idle]
    cases hfind : taskOf s tid2 with
    | none => rfl
    | some t =>
      have hpred : (t.id == tid2) = true := taskOf_some_id s tid2 t hfind
      have : ¬(t.id = tid) := by
        intro he
        exact hne (by rw [← (by simpa using hpred : t.id = tid2), he])
      simp [this]

/-! ## C8: remove_client semantics -/

/-- C8: `remove_client` with an absent id is a total no-op; with a
present id it deletes exactly that client (other clients untouched) and
flips every pending task bound to that client to `"error"`, leaving tasks
in any other state (or bound to other clients) untouched. -/
theorem remove_client_spec (s : AppContext) (cid : String) :
    (clientOf s cid = none → s.remove_client cid = s) ∧
    clientOf (s.remove_client cid) cid = none ∧
    (∀ cid2, cid2 ≠ cid → clientOf (s.remove_client cid) cid2 = clientOf s cid2) ∧
    (clientOf s cid ≠ none →
      ∀ tid2, taskOf (s.remove_client cid) tid2
        = (taskOf s tid2).map (fun t =>
            if t.client_id == cid && t.status == "pending" then { t with status := "error" }
            else t)) := by
  refine ⟨?_, ?_, ?_, ?_⟩
  · intro h
    unfold AppContext.remove_client
    rw [if_neg (by rw [(clientOf_eq_none_iff s cid).mp h]; simp)]
  · by_cases hany : s.clients.any (fun c => c.id == cid) = true
    · unfold AppContext.remove_client clientOf
      rw [if_pos hany]
      rw [List.find?_eq_none]
      intro x hx
      have := (List.mem_filter.mp hx).2
      simpa using this
    · unfold AppContext.remove_client
      rw [if_neg hany]
      exact clientOf_eq_none_of_not_any s cid (by simpa using hany)
  · intro cid2 hne
    by_cases hany : s.clients.any (fun c => c.id == cid) = true
    · unfold AppContext.remove_client clientOf
      rw [if_pos hany]
      exact find?_filter_of_imp s.clients _ _ (fun x hx => by
        have hx2 : x.id = cid2 := by simpa using hx
        simp only [hx2, Bool.not_eq_true]
        simpa using hne)
    · unfold AppContext.remove_client
      rw [if_neg hany]
  · intro hsome tid2
    have hany : s.clients.any (fun c => c.id == cid) = true := by
      cases hany : s.clients.any (fun c => c.id == cid) with
      | true => rfl
      | false => exact absurd (clientOf_eq_none_of_not_any s cid hany) hsome
    unfold AppContext.remove_client taskOf
    rw [if_pos hany]
    exact find?_map_of_pred s.tasks _ _ (fun x => by
      by_cases hx : x.client_id == cid && x.status == "pending" <;> simp [hx])

/-- C8 witness: removing client `a` from `exBusyState` marks its pending
task `t1` as `"error"`. -/
theorem remove_client_spec_witness :
    taskOf (exBusyState.remove_client "a") "t1"
      = (taskOf exBusyState "t1").map (fun t =>
          if t.client_id == "a" && t.status == "pending" then { t with status := "error" }
          else t) :=
  (remove_client_spec exBusyState "a").2.2.2 (by decide) "t1"

/-! ## C10: cleanup_old_tasks prunes by age only and never touches clients -/

/-- C10: `cleanup_old_tasks` deletes every task strictly older than the
age limit regardless of its status, keeps every younger task, and leaves
the client registry (and hence any Busy client's `current_task_id`
pointing at a now-deleted task) completely unchanged. -/
theorem cleanup_old_tasks_spec (s : AppContext) (now maxh : Int) :
    (s.cleanup_old_tasks now maxh).clients = s.clients ∧
    (s.cleanup_old_tasks now maxh).round_robin_index = s.round_robin_index ∧
    (∀ cid, clientOf (s.cleanup_old_tasks now maxh) cid = clientOf s cid) ∧
    (∀ t ∈ s.tasks, now - t.create_time > maxh * 3600 →
        t ∉ (s.cleanup_old_tasks now maxh).tasks) ∧
    (∀ t ∈ s.tasks, ¬(now - t.create_time > maxh * 3600) →
        t ∈ (s.cleanup_old_tasks now maxh).tasks) := by
  refine ⟨rfl, rfl, fun _ => rfl, ?_, ?_⟩
  · intro t _ hold hmem
    unfold AppContext.cleanup_old_tasks at hmem
    have := (List.mem_filter.mp hmem).2
    simp at this
    exact absurd hold (by simpa using this)
  · intro t ht hnot
    unfold AppContext.cleanup_old_tasks
    exact List.mem_filter.mpr ⟨ht, by simpa using hnot⟩

/-! ### Task-presence lemmas for the housekeeping block -/

theorem taskOf_timeout_task_isSome (s : AppContext) (now : Int) (tid2 tid : String) :
    (taskOf (s.timeout_task now tid2) tid).isSome = (taskOf s tid).isSome := by
  unfold AppContext.timeout_task
  cases h : taskOf s tid2 with
  | none => rfl
  | some t2 =>
    rw [taskOf_set_client_idle]
    unfold taskOf
    rw [show ({ s with tasks := updTasks s.tasks tid2 (fun x =>
          { x with status := "timeout" }) } : AppContext).tasks
        = updTasks s.tasks tid2 (fun x => { x with status := "timeout" }) from rfl]
    rw [find?_updTasks s.tasks tid2 (fun x => { x with status := "timeout" })
          (fun _ => rfl) tid]
    cases List.find? (fun t => t.id == tid) s.tasks <;> rfl

theorem taskOf_checkStep_isSome (now : Int) (st : AppContext) (tid2 tid : String) :
    (taskOf (checkStep now st tid2) tid).isSome = (taskOf st tid).isSome := by
  unfold checkStep
  split
  · split
    · exact taskOf_timeout_task_isSome st now tid2 tid
    · rfl
  · rfl

theorem taskOf_check_timeouts_isSome (s : AppContext) (now : Int) (tid : String) :
    (taskOf (s.check_timeouts now) tid).isSome = (taskOf s tid).isSome := by
  unfold AppContext.check_timeouts
  exact foldl_preserves (fun st => (taskOf st tid).isSome = (taskOf s tid).isSome)
    (checkStep now) (s.tasks.map (fun t => t.id)) s
    (fun st x h => by
      show (taskOf (checkStep now st x) tid).isSome = (taskOf s tid).isSome
      rw [taskOf_checkStep_isSome]
      exact h) rfl

theorem taskOf_remove_client_isSome (s : AppContext) (cid tid : String) :
    (taskOf (s.remove_client cid) tid).isSome = (taskOf s tid).isSome := by
  unfold AppContext.remove_client
  by_cases hany : s.clients.any (fun c => c.id == cid) = true
  · rw [if_pos hany]
    unfold taskOf
    rw [show ({ s with
        tasks := s.tasks.map (fun t =>
          if t.client_id == cid && t.status == "pending" then { t with status := "error" }
          else t),
        clients := s.clients.filter (fun c => !(c.id == cid)) } : AppContext).tasks
      = s.tasks.map (fun t =>
          if t.client_id == cid && t.status == "pending" then { t with status := "error" }
          else t) from rfl]
    rw [find?_map_of_pred s.tasks _ _ (fun x => by
      by_cases hx : (x.client_id == cid && x.status == "pending") = true <;> simp [hx])]
    cases List.find? (fun t => t.id == tid) s.tasks <;> rfl
  · rw [if_neg hany]

theorem taskOf_cleanup_disconnected_isSome (s : AppContext) (tid : String) :
    (taskOf (s.cleanup_disconnected_clients) tid).isSome = (taskOf s tid).isSome := by
  unfold AppContext.cleanup_disconnected_clients
  exact foldl_preserves (fun st => (taskOf st tid).isSome = (taskOf s tid).isSome)
    (fun st cid => st.remove_client cid) _ s
    (fun st x h => by
      show (taskOf (st.remove_client x) tid).isSome = (taskOf s tid).isSome
      rw [taskOf_remove_client_isSome]
      exact h) rfl

theorem taskOf_cleanup_old_isSome (s : AppContext) (now maxh : Int) (tid : String)
    (h : (taskOf (s.cleanup_old_tasks now maxh) tid).isSome = true) :
    (taskOf s tid).isSome = true := by
  unfold taskOf AppContext.cleanup_old_tasks at h
  obtain ⟨t, hmem, hp⟩ := List.find?_isSome.mp h
  exact List.find?_isSome.mpr ⟨t, (List.mem_filter.mp hmem).1, hp⟩

theorem taskOf_housekeeping_isSome (s : AppContext) (now : Int) (tid : String)
    (h : (taskOf (housekeeping s now) tid).isSome = true) :
    (taskOf s tid).isSome = true := by
  unfold housekeeping at h
  by_cases hbig : 50 < ((s.check_timeouts now).cleanup_disconnected_clients).tasks.length
  · rw [if_pos hbig] at h
    have h2 := taskOf_cleanup_old_isSome _ _ _ _ h
    rw [taskOf_cleanup_disconnected_isSome, taskOf_check_timeouts_isSome] at h2
    exact h2
  · rw [if_neg hbig] at h
    rw [taskOf_cleanup_disconnected_isSome, taskOf_check_timeouts_isSome] at h
    exact h

/-! ## C6: the no-idle-client path -/

/-- C6 counterexample: in `exOrphanState` (no clients, one orphaned
pending task past its deadline) the dispatch at time 100 returns the
unavailable error, but the task store is NOT unchanged: housekeeping has
forced the orphan task from `"pending"` to `"timeout"`. -/
theorem unavailable_mutates_store_cex :
    (taskOf exOrphanState "t1").map (fun t => t.status) = some "pending" ∧
    drawImageStart exOrphanState 100 "cat" "t2"
      = .reject .unavailable
          { clients := [],
            tasks := [{ exTaskA with client_id := "gone", status := "timeout" }],
            round_robin_index := 0 } :=
  ⟨rfl, rfl⟩

/-- C6 (amended): when selection finds no idle client, `draw_image`
returns the unavailable error and creates no task: the resulting state is
exactly the housekeeping image of the input (which may itself force
timed-out pending tasks to Timeout, prune disconnected clients marking
their pending tasks Error, and prune aged tasks), and every task id
present afterwards was already present before the call. -/
theorem unavailable_no_task_created (s : AppContext) (now : Int) (prompt freshTid : String)
    (hp : pyBlank prompt = false)
    (hsel : ((housekeeping s now).get_idle_client).1 = none) :
    drawImageStart s now prompt freshTid = .reject .unavailable (housekeeping s now) ∧
    (∀ tid, (taskOf (housekeeping s now) tid).isSome = true →
        (taskOf s tid).isSome = true) := by
  constructor
  · unfold drawImageStart
    rw [if_neg (by rw [hp]; exact Bool.false_ne_true)]
    rcases get_idle_client_eq (housekeeping s now) with he | ⟨idx, c, he⟩
    · simp only [he]
    · rw [he] at hsel
      exact absurd hsel (by simp)
  · exact fun tid h => taskOf_housekeeping_isSome s now tid h

/-- C6 witness: the amended statement evaluated on `exOrphanState`. -/
theorem unavailable_no_task_created_witness :
    drawImageStart exOrphanState 100 "cat" "t2"
      = .reject .unavailable (housekeeping exOrphanState 100) :=
  (unavailable_no_task_created exOrphanState 100 "cat" "t2" (by decide) rfl).1

/-! ### Exit-path helper lemmas -/

theorem taskOf_timeout_task_present (s : AppContext) (now : Int) (tid : String) (t : Task)
    (ht : taskOf s tid = some t) :
    taskOf (s.timeout_task now tid) tid = some { t with status := "timeout" } := by
  have hpred : (t.id == tid) = true := taskOf_some_id s tid t ht
  unfold AppContext.timeout_task
  rw [ht, taskOf_set_client_idle]
  unfold taskOf
  rw [show ({ s with tasks := updTasks s.tasks tid (fun x =>
        { x with status := "timeout" }) } : AppContext).tasks
      = updTasks s.tasks tid (fun x => { x with status := "timeout" }) from rfl]
  rw [find?_updTasks s.tasks tid (fun x => { x with status := "timeout" }) (fun _ => rfl) tid]
  unfold taskOf at ht
  rw [ht]
  have hid : t.id = tid := by simpa using hpred
  simp [hid]

theorem clientOf_timeout_task_present (s : AppContext) (now : Int) (tid : String) (t : Task)
    (cid : String) (ht : taskOf s tid = some t) (hb : t.client_id = cid) :
    clientOf (s.timeout_task now tid) cid
      = (clientOf s cid).map (fun c =>
          { c with status := ClientStatus.idle, current_task_id := none,
                   last_active := now }) := by
  subst hb
  unfold AppContext.timeout_task
  rw [ht]
  rw [clientOf_set_client_idle_self]
  rfl

/-- C10 witness: at time 100000 with a 1-hour age limit, the pending task
`t1` of `exBusyState` is pruned while its Busy owner is untouched. -/
theorem cleanup_old_tasks_spec_witness :
    exTaskA ∉ (exBusyState.cleanup_old_tasks 100000 1).tasks ∧
    (exBusyState.cleanup_old_tasks 100000 1).clients = exBusyState.clients :=
  ⟨(cleanup_old_tasks_spec exBusyState 100000 1).2.2.2.1 exTaskA (by decide) (by decide),
   (cleanup_old_tasks_spec exBusyState 100000 1).1⟩

/-! ## C3: exit paths of draw_image -/

/-- C3 counterexample: on the task-disappearance exit path (the
`if not current_task: break` branch, followed by the manual-timeout code
whose `timeout_task` call is a no-op because the id is gone), the
dispatch returns with its selected client still Busy and still bound to
the vanished task id — the claimed cleanup does not happen. -/
theorem dispatch_exit_leaves_busy_cex :
    taskOf exGoneState "t1" = none ∧
    clientOf (runExit .disappeared exGoneState 100 "a" "t1") "a"
      = some { id := "a", wsOpen := true, status := ClientStatus.busy,
               current_task_id := some "t1", last_active := 0, url := none } :=
  ⟨rfl, rfl⟩

/-- C3 (amended): every exit path of `draw_image` that mutates state
(send-failure, poll-loop exhaustion, cancellation, internal exception)
leaves the dispatched task terminal and the bound client idle, PROVIDED
the task is still in the store; the two poll-observation exits return
without mutating (cleanup having been done by whichever handler set the
terminal status); but on the task-disappearance path (task pruned from
the store mid-wait) the client remains Busy and bound to the deleted id. -/
theorem dispatch_exit_cleanup (p : ExitPath) (s : AppContext) (now : Int) (cid tid : String)
    (t : Task) (ht : taskOf s tid = some t) (hb : t.client_id = cid)
    (hp : p = .sendFail ∨ p = .exhausted ∨ p = .cancelled ∨ p = .internalError) :
    (∃ t2, taskOf (runExit p s now cid tid) tid = some t2 ∧
        (t2.status = "error" ∨ t2.status = "timeout")) ∧
    clientOf (runExit p s now cid tid) cid
      = (clientOf s cid).map (fun c =>
          { c with status := ClientStatus.idle, current_task_id := none,
                   last_active := now }) ∧
    runExit .sawCompleted s now cid tid = s ∧
    runExit .sawFailed s now cid tid = s := by
  have herrTask : taskOf ((s.set_client_idle now cid).setTaskStatus tid "error") tid
      = some { t with status := "error" } := by
    rw [taskOf_setTaskStatus_self, taskOf_set_client_idle, ht]
    rfl
  have herrClient : clientOf ((s.set_client_idle now cid).setTaskStatus tid "error") cid
      = (clientOf s cid).map (fun c =>
          { c with status := ClientStatus.idle, current_task_id := none,
                   last_active := now }) := by
    rw [clientOf_setTaskStatus, clientOf_set_client_idle_self]
  rcases hp with rfl | rfl | rfl | rfl
  · exact ⟨⟨{ t with status := "error" }, herrTask, Or.inl rfl⟩, herrClient, rfl, rfl⟩
  · exact ⟨⟨{ t with status := "timeout" },
      taskOf_timeout_task_present s now tid t ht, Or.inr rfl⟩,
      clientOf_timeout_task_present s now tid t cid ht hb, rfl, rfl⟩
  · exact ⟨⟨{ t with status := "timeout" },
      taskOf_timeout_task_present s now tid t ht, Or.inr rfl⟩,
      clientOf_timeout_task_present s now tid t cid ht hb, rfl, rfl⟩
  · exact ⟨⟨{ t with status := "error" }, herrTask, Or.inl rfl⟩, herrClient, rfl, rfl⟩

/-- C3 witness: the poll-exhaustion exit on `exBusyState` terminalizes
the task and idles the client. -/
theorem dispatch_exit_cleanup_witness :
    (∃ t2, taskOf (runExit .exhausted exBusyState 100 "a" "t1") "t1" = some t2 ∧
        (t2.status = "error" ∨ t2.status = "timeout")) ∧
    clientOf (runExit .exhausted exBusyState 100 "a" "t1") "a"
      = (clientOf exBusyState "a").map (fun c =>
          { c with status := ClientStatus.idle, current_task_id := none,
                   last_active := 100 }) ∧
    runExit .sawCompleted exBusyState 100 "a" "t1" = exBusyState ∧
    runExit .sawFailed exBusyState 100 "a" "t1" = exBusyState :=
  dispatch_exit_cleanup .exhausted exBusyState 100 "a" "t1" exTaskA rfl rfl
    (Or.inr (Or.inl rfl))


/-! ## C4: the busy-iff-bound client invariant -/

theorem stateInv_of_clients_eq {s1 s2 : AppContext} (h : s1.clients = s2.clients)
    (h2 : stateInv s2) : stateInv s1 := by
  unfold stateInv at h2 ⊢
  rw [h]
  exact h2

theorem clientInv_idleSet (c : Client) (now : Int) :
    clientInv { c with status := ClientStatus.idle, current_task_id := none,
                       last_active := now } := by
  simp [clientInv]

theorem clientInv_busySet (c : Client) (now : Int) (tid : String) :
    clientInv { c with status := ClientStatus.busy, current_task_id := some tid,
                       last_active := now } := by
  simp [clientInv]

theorem clientInv_fresh (cid : String) (ws : Bool) :
    clientInv { id := cid, wsOpen := ws } := by
  simp [clientInv]

theorem stateInv_updClients (cs : List Client) (cid : String) (f : Client → Client)
    (hf : ∀ c, clientInv (f c)) (h : ∀ c ∈ cs, clientInv c) :
    ∀ c ∈ updClients cs cid f, clientInv c := by
  intro c hc
  obtain ⟨y, hy, hyc⟩ := List.mem_map.mp hc
  by_cases hid : (y.id == cid) = true
  · rw [if_pos hid] at hyc
    rw [← hyc]
    exact hf y
  · rw [if_neg hid] at hyc
    rw [← hyc]
    exact h y hy

theorem stateInv_set_client_idle (s : AppContext) (now : Int) (cid : String)
    (h : stateInv s) : stateInv (s.set_client_idle now cid) := by
  unfold AppContext.set_client_idle
  by_cases hg : s.clients.any (fun c => c.id == cid) = true
  · rw [if_pos hg]
    intro c hc
    exact stateInv_updClients s.clients cid _ (fun c => clientInv_idleSet c now) h c hc
  · rw [if_neg hg]
    exact h

theorem stateInv_set_client_busy (s : AppContext) (now : Int) (cid tid : String)
    (h : stateInv s) : stateInv (s.set_client_busy now cid tid) := by
  unfold AppContext.set_client_busy
  by_cases hg : s.clients.any (fun c => c.id == cid) = true
  · rw [if_pos hg]
    intro c hc
    exact stateInv_updClients s.clients cid _ (fun c => clientInv_busySet c now tid) h c hc
  · rw [if_neg hg]
    exact h

theorem stateInv_add_client (s : AppContext) (cid : String) (ws : Bool)
    (h : stateInv s) : stateInv (s.add_client cid ws) := by
  unfold AppContext.add_client dictSetClient
  split
  · intro c hc
    exact stateInv_updClients s.clients cid (fun _ => { id := cid, wsOpen := ws })
      (fun _ => clientInv_fresh cid ws) h c hc
  · intro c hc
    rcases List.mem_append.mp hc with hc1 | hc2
    · exact h c hc1
    · rw [List.mem_singleton.mp hc2]
      exact clientInv_fresh cid ws

theorem stateInv_remove_client (s : AppContext) (cid : String) (h : stateInv s) :
    stateInv (s.remove_client cid) := by
  unfold AppContext.remove_client
  split
  · intro c hc
    exact h c (List.mem_of_mem_filter hc)
  · exact h

theorem stateInv_timeout_task (s : AppContext) (now : Int) (tid : String)
    (h : stateInv s) : stateInv (s.timeout_task now tid) := by
  unfold AppContext.timeout_task
  cases ht : taskOf s tid with
  | none => exact h
  | some t => exact stateInv_set_client_idle _ now t.client_id (stateInv_of_clients_eq rfl h)

theorem stateInv_complete_task (s : AppContext) (now : Int) (tid : String)
    (urls : List String) (h : stateInv s) : stateInv (s.complete_task now tid urls) := by
  unfold AppContext.complete_task
  cases ht : taskOf s tid with
  | none => exact h
  | some t => exact stateInv_set_client_idle _ now t.client_id (stateInv_of_clients_eq rfl h)

theorem stateInv_checkStep (now : Int) (st : AppContext) (tid : String)
    (h : stateInv st) : stateInv (checkStep now st tid) := by
  unfold checkStep
  split
  · split
    · exact stateInv_timeout_task st now tid h
    · exact h
  · exact h

theorem stateInv_check_timeouts (s : AppContext) (now : Int) (h : stateInv s) :
    stateInv (s.check_timeouts now) := by
  unfold AppContext.check_timeouts
  exact foldl_preserves stateInv (checkStep now) (s.tasks.map (fun t => t.id)) s
    (fun st x hx => stateInv_checkStep now st x hx) h

theorem stateInv_cleanup_disconnected (s : AppContext) (h : stateInv s) :
    stateInv (s.cleanup_disconnected_clients) := by
  unfold AppContext.cleanup_disconnected_clients
  exact foldl_preserves stateInv (fun st cid => st.remove_client cid) _ s
    (fun st x hx => stateInv_remove_client st x hx) h

theorem stateInv_housekeeping (s : AppContext) (now : Int) (h : stateInv s) :
    stateInv (housekeeping s now) := by
  show stateInv
    (if 50 < ((s.check_timeouts now).cleanup_disconnected_clients).tasks.length
     then ((s.check_timeouts now).cleanup_disconnected_clients).cleanup_old_tasks now 24
     else (s.check_timeouts now).cleanup_disconnected_clients)
  split
  · exact stateInv_of_clients_eq rfl
      (stateInv_cleanup_disconnected _ (stateInv_check_timeouts s now h))
  · exact stateInv_cleanup_disconnected _ (stateInv_check_timeouts s now h)

theorem stateInv_drawStart (s : AppContext) (now : Int) (prompt freshTid : String)
    (h : stateInv s) : stateInv (applyOp (.drawStart now prompt freshTid) s) := by
  show stateInv
    (match drawImageStart s now prompt freshTid with
     | .reject _ s1 => s1
     | .proceed s1 _ _ => s1)
  unfold drawImageStart
  by_cases hb : pyBlank prompt = true
  · rw [if_pos hb]
    exact h
  · rw [if_neg hb]
    have h3 : stateInv (housekeeping s now) := stateInv_housekeeping s now h
    rcases get_idle_client_eq (housekeeping s now) with he | ⟨idx, c, he⟩
    · simp only [he]
      exact h3
    · simp only [he]
      exact stateInv_set_client_busy _ now c.id freshTid (stateInv_of_clients_eq rfl h3)

theorem stateInv_runExit (p : ExitPath) (s : AppContext) (now : Int) (cid tid : String)
    (h : stateInv s) : stateInv (runExit p s now cid tid) := by
  cases p with
  | sendFail => exact stateInv_of_clients_eq rfl (stateInv_set_client_idle s now cid h)
  | sawCompleted => exact h
  | sawFailed => exact h
  | disappeared => exact stateInv_timeout_task s now tid h
  | exhausted => exact stateInv_timeout_task s now tid h
  | cancelled => exact stateInv_timeout_task s now tid h
  | internalError => exact stateInv_of_clients_eq rfl (stateInv_set_client_idle s now cid h)

/-- C4: the spec invariant `currentTaskId != null ⇔ status == Busy` holds
for every registered client after every operation of the registry,
scheduler, task store and dispatch path, whenever it held before. -/
theorem busy_iff_bound_invariant (op : Op) (s : AppContext) (h : stateInv s) :
    stateInv (applyOp op s) := by
  cases op with
  | addClient cid ws => exact stateInv_add_client s cid ws h
  | removeClient cid => exact stateInv_remove_client s cid h
  | getIdle => exact stateInv_of_clients_eq (get_idle_client_clients s) h
  | setBusy now cid tid => exact stateInv_set_client_busy s now cid tid h
  | setIdle now cid => exact stateInv_set_client_idle s now cid h
  | createTask prompt cid tid now => exact stateInv_of_clients_eq rfl h
  | completeTask now tid urls => exact stateInv_complete_task s now tid urls h
  | timeoutTask now tid => exact stateInv_timeout_task s now tid h
  | checkTimeouts now => exact stateInv_check_timeouts s now h
  | cleanupOld now maxh => exact stateInv_of_clients_eq rfl h
  | cleanupDisconnected => exact stateInv_cleanup_disconnected s h
  | setTaskStatus tid st => exact stateInv_of_clients_eq rfl h
  | drawStart now prompt freshTid => exact stateInv_drawStart s now prompt freshTid h
  | drawExit p now cid tid => exact stateInv_runExit p s now cid tid h

/-- C4 witness: binding client `a` to task `t1` preserves the invariant
on a concrete three-client registry. -/
theorem busy_iff_bound_invariant_witness :
    stateInv (applyOp (.setBusy 7 "a" "t1") exThreeIdle) :=
  busy_iff_bound_invariant (.setBusy 7 "a" "t1") exThreeIdle (by decide)

/-! ## C2: round-robin fairness of get_idle_client -/

theorem scanIdleAux_all_idle (cs : List Client) (start i fuel : Nat)
    (hn : 0 < cs.length) (hall : ∀ c ∈ cs, idleOpen c = true) :
    scanIdleAux cs start i (fuel + 1) = some ((start + i) % cs.length) := by
  have hidx : (start + i) % cs.length < cs.length := Nat.mod_lt _ hn
  show (match cs[(start + i) % cs.length]? with
        | none => none
        | some c => if idleOpen c then some ((start + i) % cs.length)
                    else scanIdleAux cs start (i + 1) fuel)
      = some ((start + i) % cs.length)
  rw [List.getElem?_eq_getElem hidx]
  simp [hall _ (List.getElem_mem hidx)]

theorem scanIdleAux_first (cs : List Client) (start fuel : Nat) (hf : 0 < fuel)
    (hn : 0 < cs.length) (hall : ∀ c ∈ cs, idleOpen c = true) (i : Nat) :
    scanIdleAux cs start i fuel = some ((start + i) % cs.length) := by
  cases fuel with
  | zero => exact absurd hf (by simp)
  | succ m => exact scanIdleAux_all_idle cs start i m hn hall

theorem get_idle_client_all_idle (s : AppContext) (hn : 0 < s.clients.length)
    (hall : ∀ c ∈ s.clients, idleOpen c = true) :
    s.get_idle_client
      = (s.clients[s.round_robin_index % s.clients.length]?,
         { s with round_robin_index :=
             (s.round_robin_index + 1) % s.clients.length }) := by
  have hidx : s.round_robin_index % s.clients.length < s.clients.length := Nat.mod_lt _ hn
  have hne : s.clients.isEmpty = false := by
    cases cs : s.clients with
    | nil => rw [cs] at hn; exact absurd hn (by simp)
    | cons a l => rfl
  unfold AppContext.get_idle_client
  rw [if_neg (by rw [hne]; exact Bool.false_ne_true)]
  rw [scanIdleAux_first s.clients s.round_robin_index s.clients.length hn hn hall 0]
  simp only [Nat.add_zero]
  rw [List.getElem?_eq_getElem hidx]
  show (some s.clients[s.round_robin_index % s.clients.length],
        ({ s with round_robin_index :=
            (s.round_robin_index % s.clients.length + 1) % s.clients.length } : AppContext))
      = (some s.clients[s.round_robin_index % s.clients.length],
        { s with round_robin_index := (s.round_robin_index + 1) % s.clients.length })
  rw [Nat.mod_add_mod]

theorem iterSelect_clients (s : AppContext) : ∀ k, (iterSelect s k).clients = s.clients := by
  intro k
  induction k with
  | zero => rfl
  | succ m ih =>
    show ((iterSelect s m).get_idle_client).2.clients = s.clients
    rw [get_idle_client_clients, ih]

theorem iterSelect_spec (s : AppContext) (hn : 0 < s.clients.length)
    (hall : ∀ c ∈ s.clients, idleOpen c = true) :
    ∀ k, selAt s k = s.clients[(s.round_robin_index + k) % s.clients.length]? ∧
         (iterSelect s (k + 1)).round_robin_index
            = (s.round_robin_index + (k + 1)) % s.clients.length := by
  intro k
  induction k with
  | zero =>
    have key := get_idle_client_all_idle s hn hall
    constructor
    · show (s.get_idle_client).1 = s.clients[(s.round_robin_index + 0) % s.clients.length]?
      rw [key]
      show s.clients[s.round_robin_index % s.clients.length]?
          = s.clients[(s.round_robin_index + 0) % s.clients.length]?
      rw [Nat.add_zero]
    · show (s.get_idle_client).2.round_robin_index
          = (s.round_robin_index + (0 + 1)) % s.clients.length
      rw [key]
  | succ m ih =>
    have hcl : (iterSelect s (m + 1)).clients = s.clients := iterSelect_clients s (m + 1)
    have hn2 : 0 < (iterSelect s (m + 1)).clients.length := by rw [hcl]; exact hn
    have hall2 : ∀ c ∈ (iterSelect s (m + 1)).clients, idleOpen c = true := by
      rw [hcl]; exact hall
    have key := get_idle_client_all_idle (iterSelect s (m + 1)) hn2 hall2
    have hmod : ((s.round_robin_index + (m + 1)) % s.clients.length) % s.clients.length
        = (s.round_robin_index + (m + 1)) % s.clients.length :=
      Nat.mod_mod_of_dvd _ dvd_rfl
    constructor
    · show ((iterSelect s (m + 1)).get_idle_client).1
          = s.clients[(s.round_robin_index + (m + 1)) % s.clients.length]?
      rw [key, hcl, ih.2, hmod]
    · show ((iterSelect s (m + 1)).get_idle_client).2.round_robin_index
          = (s.round_robin_index + (m + 1 + 1)) % s.clients.length
      rw [key, hcl, ih.2]
      rw [Nat.mod_add_mod]
      rw [Nat.add_assoc]

/-- C2: with every registered client idle and connection-open, the
consecutive `get_idle_client` calls return the clients in registration
order starting at the cursor (call `k` returns the client at position
`(cursor + k) mod N`), after each call the cursor sits immediately after
the selected position, and over `N` calls the selected positions are
pairwise distinct and cover every registry position — each client is
selected exactly once. -/
theorem round_robin_fairness (s : AppContext)
    (hn : 0 < s.clients.length)
    (hall : ∀ c ∈ s.clients, idleOpen c = true) :
    (∀ k, selAt s k = s.clients[(s.round_robin_index + k) % s.clients.length]?) ∧
    (∀ k, (iterSelect s (k + 1)).round_robin_index
        = (s.round_robin_index + (k + 1)) % s.clients.length) ∧
    ((List.range s.clients.length).map
        (fun k => (s.round_robin_index + k) % s.clients.length)).Nodup ∧
    (∀ j < s.clients.length, j ∈ (List.range s.clients.length).map
        (fun k => (s.round_robin_index + k) % s.clients.length)) := by
  refine ⟨fun k => (iterSelect_spec s hn hall k).1,
          fun k => (iterSelect_spec s hn hall k).2, ?_, ?_⟩
  · refine List.Nodup.map_on ?_ (List.nodup_range _)
    intro x hx y hy hxy
    have hx2 : x < s.clients.length := List.mem_range.mp hx
    have hy2 : y < s.clients.length := List.mem_range.mp hy
    have hme : Nat.ModEq s.clients.length (s.round_robin_index + x)
        (s.round_robin_index + y) := hxy
    have hxy2 : x % s.clients.length = y % s.clients.length :=
      Nat.ModEq.add_left_cancel' s.round_robin_index hme
    rw [Nat.mod_eq_of_lt hx2, Nat.mod_eq_of_lt hy2] at hxy2
    exact hxy2
  · intro j hj
    have hnd : ((List.range s.clients.length).map
        (fun k => (s.round_robin_index + k) % s.clients.length)).Nodup := by
      refine List.Nodup.map_on ?_ (List.nodup_range _)
      intro x hx y hy hxy
      have hx2 : x < s.clients.length := List.mem_range.mp hx
      have hy2 : y < s.clients.length := List.mem_range.mp hy
      have hme : Nat.ModEq s.clients.length (s.round_robin_index + x)
          (s.round_robin_index + y) := hxy
      have hxy2 : x % s.clients.length = y % s.clients.length :=
        Nat.ModEq.add_left_cancel' s.round_robin_index hme
      rw [Nat.mod_eq_of_lt hx2, Nat.mod_eq_of_lt hy2] at hxy2
      exact hxy2
    have hsub : ((List.range s.clients.length).map
        (fun k => (s.round_robin_index + k) % s.clients.length)).toFinset
        ⊆ Finset.range s.clients.length := by
      intro x hx
      rw [List.mem_toFinset] at hx
      obtain ⟨k, _, hk2⟩ := List.mem_map.mp hx
      rw [← hk2]
      exact Finset.mem_range.mpr (Nat.mod_lt _ hn)
    have hcard : (Finset.range s.clients.length).card
        ≤ ((List.range s.clients.length).map
            (fun k => (s.round_robin_index + k) % s.clients.length)).toFinset.card := by
      rw [Finset.card_range, List.toFinset_card_of_nodup hnd, List.length_map,
        List.length_range]
    have heq := Finset.eq_of_subset_of_card_le hsub hcard
    rw [← List.mem_toFinset, heq]
    exact Finset.mem_range.mpr hj

/-- C2 witness: on the three-idle-client registry the first three calls
select positions 0, 1, 2 and the cursor ends just past each selection. -/
theorem round_robin_fairness_witness :
    selAt exThreeIdle 0
      = exThreeIdle.clients[(exThreeIdle.round_robin_index + 0)
          % exThreeIdle.clients.length]? ∧
    selAt exThreeIdle 1
      = exThreeIdle.clients[(exThreeIdle.round_robin_index + 1)
          % exThreeIdle.clients.length]? ∧
    selAt exThreeIdle 2
      = exThreeIdle.clients[(exThreeIdle.round_robin_index + 2)
          % exThreeIdle.clients.length]? ∧
    (iterSelect exThreeIdle 3).round_robin_index
      = (exThreeIdle.round_robin_index + 3) % exThreeIdle.clients.length :=
  ⟨(round_robin_fairness exThreeIdle (by decide) (by decide)).1 0,
   (round_robin_fairness exThreeIdle (by decide) (by decide)).1 1,
   (round_robin_fairness exThreeIdle (by decide) (by decide)).1 2,
   (round_robin_fairness exThreeIdle (by decide) (by decide)).2.1 2⟩

/-! ## C9: the Status query first forces all overdue timeouts -/

theorem taskOf_timeout_task_other (s : AppContext) (now : Int) (tid2 tid : String)
    (hne : tid ≠ tid2) : taskOf (s.timeout_task now tid2) tid = taskOf s tid := by
  unfold AppContext.timeout_task
  cases h2 : taskOf s tid2 with
  | none => rfl
  | some t2 =>
    rw [taskOf_set_client_idle]
    unfold taskOf
    rw [show ({ s with tasks := updTasks s.tasks tid2 (fun x =>
          { x with status := "timeout" }) } : AppContext).tasks
        = updTasks s.tasks tid2 (fun x => { x with status := "timeout" }) from rfl]
    rw [find?_updTasks s.tasks tid2 (fun x => { x with status := "timeout" })
          (fun _ => rfl) tid]
    cases hfind : List.find? (fun t => t.id == tid) s.tasks with
    | none => rfl
    | some t =>
      have hid : t.id = tid := by simpa using List.find?_some hfind
      simp [hid, hne]

theorem taskOf_checkStep_other (now : Int) (st : AppContext) (tid2 tid : String)
    (hne : tid ≠ tid2) : taskOf (checkStep now st tid2) tid = taskOf st tid := by
  unfold checkStep
  split
  · split
    · exact taskOf_timeout_task_other st now tid2 tid hne
    · rfl
  · rfl

theorem foldl_taskOf_other (now : Int) (l : List String) (st : AppContext) (tid : String)
    (hl : tid ∉ l) : taskOf (l.foldl (checkStep now) st) tid = taskOf st tid := by
  induction l generalizing st with
  | nil => rfl
  | cons a l ih =>
    have hna : tid ≠ a := fun he => hl (he ▸ List.mem_cons_self a l)
    have hnl : tid ∉ l := fun he => hl (List.mem_cons_of_mem a he)
    show taskOf (l.foldl (checkStep now) (checkStep now st a)) tid = taskOf st tid
    rw [ih (checkStep now st a) hnl]
    exact taskOf_checkStep_other now st a tid hna

theorem clientIdle_pres_set_idle (st : AppContext) (now : Int) (cid2 cid : String)
    (h : ∀ c, clientOf st cid = some c → c.status = ClientStatus.idle) :
    ∀ c, clientOf (st.set_client_idle now cid2) cid = some c
      → c.status = ClientStatus.idle := by
  intro c hc
  rw [clientOf_set_client_idle] at hc
  cases hfind : clientOf st cid with
  | none =>
    rw [hfind] at hc
    exact absurd hc (by simp)
  | some c0 =>
    rw [hfind] at hc
    have hc2 : (if c0.id == cid2 then
        ({ c0 with status := ClientStatus.idle, current_task_id := none,
                   last_active := now } : Client) else c0) = c := by
      simpa using hc
    by_cases hid : (c0.id == cid2) = true
    · rw [if_pos hid] at hc2
      rw [← hc2]
    · rw [if_neg hid] at hc2
      rw [← hc2]
      exact h c0 hfind

theorem clientIdle_pres_timeout_task (st : AppContext) (now : Int) (tid2 cid : String)
    (h : ∀ c, clientOf st cid = some c → c.status = ClientStatus.idle) :
    ∀ c, clientOf (st.timeout_task now tid2) cid = some c
      → c.status = ClientStatus.idle := by
  unfold AppContext.timeout_task
  cases h2 : taskOf st tid2 with
  | none => exact h
  | some t2 =>
    intro c hc
    refine clientIdle_pres_set_idle
      ({ st with tasks := updTasks st.tasks tid2 (fun x => { x with status := "timeout" }) })
      now t2.client_id cid ?_ c hc
    exact h

theorem clientIdle_pres_checkStep (now : Int) (st : AppContext) (tid2 cid : String)
    (h : ∀ c, clientOf st cid = some c → c.status = ClientStatus.idle) :
    ∀ c, clientOf (checkStep now st tid2) cid = some c
      → c.status = ClientStatus.idle := by
  unfold checkStep
  split
  · split
    · exact clientIdle_pres_timeout_task st now tid2 cid h
    · exact h
  · exact h

theorem foldl_clientIdle (now : Int) (l : List String) (st : AppContext) (cid : String)
    (h : ∀ c, clientOf st cid = some c → c.status = ClientStatus.idle) :
    ∀ c, clientOf (l.foldl (checkStep now) st) cid = some c
      → c.status = ClientStatus.idle := by
  exact foldl_preserves
    (fun st2 => ∀ c, clientOf st2 cid = some c → c.status = ClientStatus.idle)
    (checkStep now) l st
    (fun st2 x hx => by
      show ∀ c, clientOf (checkStep now st2 x) cid = some c → c.status = ClientStatus.idle
      exact clientIdle_pres_checkStep now st2 x cid hx) h

theorem checkStep_fires (now : Int) (st : AppContext) (tid : String) (t : Task)
    (ht : taskOf st tid = some t) (hcond : (t.status == "pending" && t.is_timeout now) = true) :
    checkStep now st tid = st.timeout_task now tid := by
  unfold checkStep
  rw [ht]
  show (if (t.status == "pending" && t.is_timeout now) = true
        then st.timeout_task now tid else st) = st.timeout_task now tid
  rw [if_pos hcond]

theorem checkStep_skips (now : Int) (st : AppContext) (tid : String) (t : Task)
    (ht : taskOf st tid = some t)
    (hcond : (t.status == "pending" && t.is_timeout now) = false) :
    checkStep now st tid = st := by
  unfold checkStep
  rw [ht]
  show (if (t.status == "pending" && t.is_timeout now) = true
        then st.timeout_task now tid else st) = st
  rw [if_neg (by rw [hcond]; exact Bool.false_ne_true)]

theorem tasksIds_timeout_task (s : AppContext) (now : Int) (tid : String) :
    (s.timeout_task now tid).tasks.map (fun t => t.id) = s.tasks.map (fun t => t.id) := by
  unfold AppContext.timeout_task
  cases h : taskOf s tid with
  | none => rfl
  | some t =>
    show ((({ s with tasks := updTasks s.tasks tid (fun x =>
        { x with status := "timeout" }) } : AppContext)).set_client_idle
          now t.client_id).tasks.map (fun t => t.id)
      = s.tasks.map (fun t => t.id)
    rw [set_client_idle_tasks]
    show (updTasks s.tasks tid (fun x => { x with status := "timeout" })).map (fun t => t.id)
      = s.tasks.map (fun t => t.id)
    unfold updTasks
    rw [List.map_map]
    exact List.map_congr_left (fun x _ => by
      by_cases hx : x.id = tid <;> simp [hx])

theorem tasksIds_checkStep (now : Int) (st : AppContext) (tid : String) :
    (checkStep now st tid).tasks.map (fun t => t.id) = st.tasks.map (fun t => t.id) := by
  unfold checkStep
  split
  · split
    · exact tasksIds_timeout_task st now tid
    · rfl
  · rfl

theorem tasksIds_check_timeouts (s : AppContext) (now : Int) :
    (s.check_timeouts now).tasks.map (fun t => t.id) = s.tasks.map (fun t => t.id) := by
  unfold AppContext.check_timeouts
  exact foldl_preserves
    (fun st => st.tasks.map (fun t => t.id) = s.tasks.map (fun t => t.id))
    (checkStep now) (s.tasks.map (fun t => t.id)) s
    (fun st x hx => by
      show (checkStep now st x).tasks.map (fun t => t.id) = s.tasks.map (fun t => t.id)
      rw [tasksIds_checkStep]
      exact hx) rfl

theorem check_timeouts_char (s : AppContext) (now : Int)
    (hnodup : (s.tasks.map (fun t => t.id)).Nodup) :
    ∀ t ∈ s.tasks,
      taskOf (s.check_timeouts now) t.id
        = some (if t.status == "pending" && t.is_timeout now
                then { t with status := "timeout" } else t) ∧
      ((t.status == "pending" && t.is_timeout now) = true →
        ∀ c, clientOf (s.check_timeouts now) t.client_id = some c
          → c.status = ClientStatus.idle) := by
  intro t ht
  have horig : taskOf s t.id = some t := by
    unfold taskOf
    exact find?_of_mem_nodup s.tasks (fun x => x.id) hnodup t ht
  have hmem : t.id ∈ s.tasks.map (fun x => x.id) :=
    List.mem_map_of_mem (fun x => x.id) ht
  obtain ⟨pre, post, hsplit⟩ := List.append_of_mem hmem
  have hnd2 : (pre ++ t.id :: post).Nodup := by rw [← hsplit]; exact hnodup
  have hpre : t.id ∉ pre := by
    intro hin
    exact ((List.nodup_append.mp hnd2).2.2 hin) (List.mem_cons_self t.id post)
  have hpost : t.id ∉ post := (List.nodup_cons.mp (List.nodup_append.mp hnd2).2.1).1
  have hfold : s.check_timeouts now
      = post.foldl (checkStep now)
          (checkStep now (pre.foldl (checkStep now) s) t.id) := by
    unfold AppContext.check_timeouts
    rw [hsplit, List.foldl_append, List.foldl_cons]
  have hA : taskOf (pre.foldl (checkStep now) s) t.id = taskOf s t.id :=
    foldl_taskOf_other now pre s t.id hpre
  cases hcond : (t.status == "pending" && t.is_timeout now) with
  | true =>
    have hfire : checkStep now (pre.foldl (checkStep now) s) t.id
        = (pre.foldl (checkStep now) s).timeout_task now t.id :=
      checkStep_fires now _ t.id t (by rw [hA]; exact horig) hcond
    constructor
    · rw [hfold, foldl_taskOf_other now post _ t.id hpost, hfire]
      rw [taskOf_timeout_task_present _ now t.id t (by rw [hA]; exact horig)]
      rfl
    · intro _
      rw [hfold]
      refine foldl_clientIdle now post _ t.client_id ?_
      rw [hfire]
      intro c hc
      rw [clientOf_timeout_task_present _ now t.id t t.client_id
            (by rw [hA]; exact horig) rfl] at hc
      obtain ⟨c0, hc0, hc1⟩ := Option.map_eq_some'.mp hc
      rw [← hc1]
  | false =>
    have hskip : checkStep now (pre.foldl (checkStep now) s) t.id
        = pre.foldl (checkStep now) s :=
      checkStep_skips now _ t.id t (by rw [hA]; exact horig) hcond
    constructor
    · rw [hfold, foldl_taskOf_other now post _ t.id hpost, hskip, hA, horig]
      rfl
    · intro hcontra
      exact absurd hcontra (by simp)

/-- C9: `get_connection_status` is not read-only: it runs `check_timeouts`
before building its report, so afterwards no task in the store is both
pending and past its deadline, and every task that was pending and past
its deadline has been forced to `"timeout"` with its owning client (when
still registered) set idle. -/
theorem status_query_forces_timeouts (s : AppContext) (now : Int)
    (hnodup : (s.tasks.map (fun t => t.id)).Nodup) :
    (∀ t2 ∈ (getConnectionStatusState s now).tasks,
        ¬(t2.status = "pending" ∧ t2.is_timeout now = true)) ∧
    (∀ t ∈ s.tasks, t.status = "pending" → t.is_timeout now = true →
        taskOf (getConnectionStatusState s now) t.id
            = some { t with status := "timeout" } ∧
        (∀ c, clientOf (getConnectionStatusState s now) t.client_id = some c →
            c.status = ClientStatus.idle)) := by
  have hids : (s.check_timeouts now).tasks.map (fun t => t.id)
      = s.tasks.map (fun t => t.id) := tasksIds_check_timeouts s now
  have hnd3 : ((s.check_timeouts now).tasks.map (fun t => t.id)).Nodup := by
    rw [hids]; exact hnodup
  constructor
  · intro t2 ht2 hcontra
    have hfinal : taskOf (s.check_timeouts now) t2.id = some t2 := by
      unfold taskOf
      exact find?_of_mem_nodup (s.check_timeouts now).tasks (fun x => x.id) hnd3 t2 ht2
    have hmem2 : t2.id ∈ s.tasks.map (fun x => x.id) := by
      rw [← hids]
      exact List.mem_map_of_mem (fun x => x.id) ht2
    obtain ⟨t, ht, hid⟩ := List.mem_map.mp hmem2
    have hchar := (check_timeouts_char s now hnodup t ht).1
    rw [← hid] at hfinal
    rw [hfinal] at hchar
    have ht2eq : t2 = (if t.status == "pending" && t.is_timeout now
        then { t with status := "timeout" } else t) := by
      exact Option.some.inj hchar
    by_cases hcond : (t.status == "pending" && t.is_timeout now) = true
    · rw [if_pos hcond] at ht2eq
      have : t2.status = "timeout" := by rw [ht2eq]
      rw [this] at hcontra
      exact absurd hcontra.1 (by decide)
    · rw [if_neg hcond] at ht2eq
      rw [ht2eq] at hcontra
      exact hcond (by
        rw [Bool.and_eq_true]
        exact ⟨by simpa using hcontra.1, hcontra.2⟩)
  · intro t ht hpend hto
    have hchar := check_timeouts_char s now hnodup t ht
    have hcond : (t.status == "pending" && t.is_timeout now) = true := by
      rw [Bool.and_eq_true]
      exact ⟨by simpa using hpend, hto⟩
    constructor
    · have h1 := hchar.1
      rw [if_pos hcond] at h1
      exact h1
    · exact hchar.2 hcond

/-- C9 witness: on `exBusyState` at time 100 the overdue pending task
`t1` is forced to `"timeout"` and its Busy owner `a` is idle afterwards. -/
theorem status_query_forces_timeouts_witness :
    taskOf (getConnectionStatusState exBusyState 100) exTaskA.id
      = some { exTaskA with status := "timeout" } ∧
    (∀ c, clientOf (getConnectionStatusState exBusyState 100) exTaskA.client_id = some c →
        c.status = ClientStatus.idle) :=
  (status_query_forces_timeouts exBusyState 100 (by decide)).2 exTaskA (by decide)
    rfl (by decide)

end McpServer
